import Mathlib

/-!
# Verification of the `bus` package (in-memory publish/subscribe)

Shallow embedding of `bus.go`.  The Go package maintains, per `Bus`, a map
`topics : map[interface{}][]Handler` from topic identifiers to ordered handler
lists, guarded by a RW lock.  We model:

* topic identifiers by a type `τ` with decidable equality (Go `interface{}`
  keys compared with `==`);
* a handler value by a numeric identity `HandlerId`.  Go compares handlers
  with `h2 == h` on interface values, i.e. by reference identity, never by
  behaviour; the behaviour of a handler (`Handler.On`) is arbitrary client
  code and is therefore a *parameter* of the model (`HandlerEnv` below), while
  the bus stores only identities — exactly as the Go map stores only
  references;
* the map by an association list without duplicate keys.  Go's map iteration
  order is unspecified; the association-list order is a modelling artifact and
  every order-sensitive theorem below is stated order-independently;
* the mutex-protected sequential runs of the methods by plain state passing
  (each Go method body runs under the lock, hence atomically with respect to
  the topic map).

Machine integers: the only integer computed by the code is the returned
handler count, a Go `int` obtained from `len` of in-memory slices; it cannot
overflow before memory does, and we model it as `Nat`.

`Publish`'s synchronous loop is modelled twice:

* `Bus.Publish` treats the snapshot `hs := b.topics[t]` as an immutable list.
  This is exact whenever no invoked handler reentrantly mutates the published
  topic's own list (Go slices are value-copied headers over a shared backing
  array, so mutations of *other* topics, or between calls, are list-like).
* `publishAliased` additionally models the Go slice backing array shared
  between the snapshot header and `topics[t]`, because `Unsubscribe`'s
  `append(a[:i], a[i+1:]...)` is an *in-place* left shift of that backing
  array (the Go specification guarantees `append` reuses the array whenever
  capacity suffices, and removal never grows the slice).  A reentrant removal
  during a synchronous publish therefore shifts elements underneath the
  running `range` loop.  See `sliceRemove` for the cell-by-cell derivation.
-/

namespace GoBus

/-- Go: handler values are compared by interface identity (`h2 == h`).
Each distinct handler instance is modelled by a distinct `Nat`. -/
abbrev HandlerId := Nat

/-- Go: `map[interface{}][]Handler`, modelled as a duplicate-key-free
association list. -/
abbrev Topics (τ : Type) := List (τ × List HandlerId)

/-- The bus actions a handler body may perform reentrantly on the bus it was
invoked from (client code may call any method; nested `Publish` is not needed
by any claim and is omitted). -/
inductive BusOp (τ : Type) where
  | subscribe (t : τ) (h : HandlerId)
  | unsubscribe (t : τ) (h : HandlerId)
deriving DecidableEq

/-- The behaviour of handler code: given the handler's identity and the
`(topic, value)` arguments of `On`, the list of bus calls the handler makes.
This is the model of arbitrary client handler bodies. -/
abbrev HandlerEnv (τ ν : Type) := HandlerId → τ → ν → List (BusOp τ)

/-- Go: `type Bus struct { lock sync.RWMutex; topics map[interface{}][]Handler }`.
The lock serialises method bodies and has no sequential content. -/
structure Bus (τ : Type) where
  topics : Topics τ
deriving DecidableEq

/-- Go: `func NewBus() *Bus` — empty topic map. -/
def NewBus {τ : Type} : Bus τ := ⟨[]⟩

/-- Map lookup `b.topics[t]` (first entry with key `t`). -/
def findTopic {τ : Type} [DecidableEq τ] : Topics τ → τ → Option (List HandlerId)
  | [], _ => none
  | (t2, hs) :: rest, t => if t2 = t then some hs else findTopic rest t

/-- Reading `b.topics[t]` as Go does in `Publish`/`Unsubscribe`: a missing key
yields the nil (empty) slice. -/
def findList {τ : Type} [DecidableEq τ] (ts : Topics τ) (t : τ) : List HandlerId :=
  (findTopic ts t).getD []

/-- Go `Subscribe` body: `if hs, ok := b.topics[t]; !ok { b.topics[t] =
[]Handler{h} } else { b.topics[t] = append(hs, h) }` — append `h` to the
entry for `t`, creating it if absent. -/
def subTopics {τ : Type} [DecidableEq τ] : Topics τ → τ → HandlerId → Topics τ
  | [], t, h => [(t, [h])]
  | (t2, hs) :: rest, t, h =>
      if t2 = t then (t2, hs ++ [h]) :: rest else (t2, hs) :: subTopics rest t h

/-- Go `Unsubscribe`'s scan: `for i, h2 := range a { if h2 == h { ... } }` —
remove the first element identical to `h`, or report that none exists. -/
def removeFirst : List HandlerId → HandlerId → Option (List HandlerId)
  | [], _ => none
  | h2 :: rest, h =>
      if h2 = h then some rest else (removeFirst rest h).map (fun l => h2 :: l)

/-- Go `Unsubscribe` body on the topic map: look up `topics[t]`, remove the
first element identical to `h`; if the remainder is empty, `delete` the key;
return whether a removal happened.  When nothing is found the map is not
written at all. -/
def unsubTopics {τ : Type} [DecidableEq τ] : Topics τ → τ → HandlerId → Topics τ × Bool
  | [], _, _ => ([], false)
  | (t2, hs) :: rest, t, h =>
      if t2 = t then
        match removeFirst hs h with
        | none => ((t2, hs) :: rest, false)
        | some hs2 => (if hs2 = [] then rest else (t2, hs2) :: rest, true)
      else
        let r := unsubTopics rest t h
        ((t2, hs) :: r.1, r.2)

/-- Go: the closure returned by `Subscribe`, `func() bool { return
b.Unsubscribe(t, h) }`; it captures the topic and the exact handler
reference (the bus it captures is the state the capability is run against). -/
structure UnsubscribeCap (τ : Type) where
  topic : τ
  handler : HandlerId
deriving DecidableEq

/-- Go: `func (b *Bus) Unsubscribe(t interface{}, h Handler) bool`. -/
def Bus.Unsubscribe {τ : Type} [DecidableEq τ] (b : Bus τ) (t : τ) (h : HandlerId) :
    Bus τ × Bool :=
  let r := unsubTopics b.topics t h
  (⟨r.1⟩, r.2)

/-- Go: `func (b *Bus) Subscribe(t interface{}, h Handler) UnsubscribeFunc`. -/
def Bus.Subscribe {τ : Type} [DecidableEq τ] (b : Bus τ) (t : τ) (h : HandlerId) :
    Bus τ × UnsubscribeCap τ :=
  (⟨subTopics b.topics t h⟩, ⟨t, h⟩)

/-- Invoking the capability returned by `Subscribe`. -/
def UnsubscribeCap.run {τ : Type} [DecidableEq τ] (c : UnsubscribeCap τ) (b : Bus τ) :
    Bus τ × Bool :=
  b.Unsubscribe c.topic c.handler

/-- Go: `type PublishFlag int` with `Async PublishFlag = 1 << 0`. -/
abbrev PublishFlag := Nat

/-- The `Async` flag bit. -/
def Async : PublishFlag := 1

/-- Go `Publish` prologue: `var f PublishFlag = 0; for _, flag := range flags
{ f = f | flag }`. -/
def combineFlags (flags : List PublishFlag) : PublishFlag :=
  flags.foldl (fun a b => a ||| b) 0

/-- One reentrant bus call made by a handler body. -/
def applyOp {τ : Type} [DecidableEq τ] (b : Bus τ) : BusOp τ → Bus τ
  | .subscribe t h => (b.Subscribe t h).1
  | .unsubscribe t h => (b.Unsubscribe t h).1

/-- Invocation `h.On(b, t, v)`: run the handler body, i.e. perform its bus calls. -/
def runHandler {τ ν : Type} [DecidableEq τ] (env : HandlerEnv τ ν) (t : τ) (v : ν)
    (b : Bus τ) (h : HandlerId) : Bus τ :=
  (env h t v).foldl applyOp b

/-- Result of Go `Publish`: the `(int, error)` pair, the resulting bus state,
the handlers invoked synchronously on the calling goroutine (in order), and
the handler invocations started in fresh goroutines (`Async` mode; their
bodies run after the call returns and are not part of this call's effect). -/
structure PublishResult (τ : Type) where
  bus : Bus τ
  count : Nat
  err : Option Unit
  invoked : List HandlerId
  spawned : List HandlerId
deriving DecidableEq

/-- Go: `func (b *Bus) Publish(t, v interface{}, flags ...PublishFlag) (int, error)`.
Snapshot `hs := b.topics[t]` under the read lock, release, then either spawn
each handler (`Async`) or invoke each in order on the calling goroutine.
Returns `len(hs), nil` in both branches.  The snapshot is treated as an
immutable list here; `publishAliased` below refines the synchronous loop with
the Go slice backing-array semantics, which matters only when an invoked
handler reentrantly mutates topic `t`'s own list. -/
def Bus.Publish {τ ν : Type} [DecidableEq τ] (env : HandlerEnv τ ν) (b : Bus τ)
    (t : τ) (v : ν) (flags : List PublishFlag) : PublishResult τ :=
  let f := combineFlags flags
  let hs := findList b.topics t
  if f &&& Async ≠ 0 then
    { bus := b, count := hs.length, err := none, invoked := [], spawned := hs }
  else
    { bus := hs.foldl (runHandler env t v) b, count := hs.length, err := none,
      invoked := hs, spawned := [] }

/-- Result of Go `PublishAll`: the `(int, error)` pair, the bus (unchanged —
every handler is spawned in its own goroutine while the read lock is held),
and the spawned `(topic, handler)` invocations. -/
structure PublishAllResult (τ : Type) where
  bus : Bus τ
  count : Nat
  err : Option Unit
  spawned : List (τ × HandlerId)
deriving DecidableEq

/-- Go: `func (b *Bus) PublishAll(v interface{}) (int, error)` — `c := 0; for
t, hs := range b.topics { for _, h := range hs { go h.On(b, t, v) }; c +=
len(hs) }; return c, nil`.  Go map iteration order is unspecified; the
association-list order stands in for it, and the theorems below use it only
through order-independent counts. -/
def Bus.PublishAll {τ ν : Type} (b : Bus τ) (_v : ν) : PublishAllResult τ :=
  let r := b.topics.foldl
    (fun (acc : Nat × List (τ × HandlerId)) p =>
      (acc.1 + p.2.length, acc.2 ++ p.2.map (fun h => (p.1, h))))
    (0, [])
  { bus := b, count := r.1, err := none, spawned := r.2 }

/-! ## Refined synchronous publish: Go slice backing-array semantics

`hs := b.topics[t]` copies the slice *header* (pointer, length, capacity);
the backing array stays shared with `topics[t]`.  `range hs` fixes the length
`n` once but reads each element from the (shared, mutable) backing array at
the moment of its iteration.  `Unsubscribe`'s removal
`append(a[:i], a[i+1:]...)` never needs more capacity than `a` already has,
so by the Go specification of `append` it reuses the backing array: it
overwrites cells `i .. m-2` with the old cells `i+1 .. m-1` (`m` = current
length of `topics[t]`) and leaves every other cell, in particular the cells
`m-1 .. n-1` still visible to an in-flight snapshot, unchanged.

The refined model tracks, during one synchronous publish of topic `t`, the
first `n` cells of that shared backing array (`backing`), the current length
`m` of `topics[t]` (`topics[t]` is `backing.take m`, or the key is absent
when `m = 0`), and the rest of the map (`others`).  Handler bodies here
perform reentrant `Unsubscribe` calls only: removal is in-place regardless of
capacity, so this fragment's behaviour is fully determined by the Go
specification (a reentrant `Subscribe` to `t` would make the model depend on
the unspecified capacity-growth policy and is not needed by any claim). -/

/-- Go scan `for i, h2 := range a { if h2 == h { ... } }` — index of the first
element identical to `h`. -/
def firstIdx : List HandlerId → HandlerId → Option Nat
  | [], _ => none
  | h2 :: rest, h => if h2 = h then some 0 else (firstIdx rest h).map (fun i => i + 1)

/-- The in-place effect of `append(a[:i], a[i+1:]...)` on the first `n` cells
of the backing array, where `a` is the length-`m` prefix: cells `0 .. i-1`
keep their values (`backing.take i`), cells `i .. m-2` receive the old cells
`i+1 .. m-1` (`(backing.take m).drop (i+1)`), and cells `m-1 .. n-1` keep
their old values (`backing.drop (m-1)`). -/
def sliceRemove (backing : List HandlerId) (i m : Nat) : List HandlerId :=
  backing.take i ++ (backing.take m).drop (i + 1) ++ backing.drop (m - 1)

/-- Per-publish loop state: the rest of the topic map (`others`, no entry for
the published topic), the first `n` cells of the shared backing array, and
the current length `m` of the published topic's slice. -/
structure LoopState (τ : Type) where
  others : Topics τ
  backing : List HandlerId
  m : Nat
deriving DecidableEq

/-- A reentrant `b.Unsubscribe(t2, h)` performed by a handler while the
publish loop over topic `t` is running.  On the published topic it is the
in-place backing-array shift; on any other topic it is the ordinary map
update. -/
def applyRemoval {τ : Type} [DecidableEq τ] (t : τ) (st : LoopState τ) :
    τ × HandlerId → LoopState τ
  | (t2, h) =>
      if t2 = t then
        match firstIdx (st.backing.take st.m) h with
        | none => st
        | some i => { st with backing := sliceRemove st.backing i st.m, m := st.m - 1 }
      else
        { st with others := (unsubTopics st.others t2 h).1 }

/-- All reentrant removals performed by one handler invocation, in order. -/
def runRemovals {τ : Type} [DecidableEq τ] (t : τ) (ops : List (τ × HandlerId))
    (st : LoopState τ) : LoopState τ :=
  ops.foldl (applyRemoval t) st

/-- Delete every entry for key `t` (used to split the map into the published
topic and the rest). -/
def eraseKey {τ : Type} [DecidableEq τ] : Topics τ → τ → Topics τ
  | [], _ => []
  | (t2, hs) :: rest, t =>
      if t2 = t then eraseKey rest t else (t2, hs) :: eraseKey rest t

/-- Refined synchronous `Publish` of topic `t`: snapshot header of length
`n`, then `n` iterations, each reading the current backing cell `k` and then
running that handler's reentrant removals (`renv h`).  Returns the invoked
handlers in order, the resulting bus, and the returned count `len(hs) = n`. -/
def publishAliased {τ : Type} [DecidableEq τ] (renv : HandlerId → List (τ × HandlerId))
    (b : Bus τ) (t : τ) : List HandlerId × Bus τ × Nat :=
  let hs := findList b.topics t
  let n := hs.length
  let fin := (List.range n).foldl
    (fun (acc : List HandlerId × LoopState τ) k =>
      let h := (acc.2.backing.get? k).getD 0
      (acc.1 ++ [h], runRemovals t (renv h) acc.2))
    ([], ⟨eraseKey b.topics t, hs, n⟩)
  (fin.1,
   ⟨if fin.2.m = 0 then fin.2.others else (t, fin.2.backing.take fin.2.m) :: fin.2.others⟩,
   n)

/-! ## Module-level API and the default bus

Go keeps `var defaultBus *Bus` together with a `sync.Once`; the pair is
modelled by an `Option (Bus τ)` global state (`none` = not yet created).
Every free function calls `getDefaultBus()` and invokes the method on the
returned bus; the mutated bus is the new global state (the global holds a
pointer, so method mutations are visible through it). -/

/-- Go: `func getDefaultBus() *Bus` — create the default bus exactly once. -/
def getDefaultBus {τ : Type} : Option (Bus τ) → Bus τ
  | none => NewBus
  | some b => b

namespace DefaultBus

/-- Go module-level `Subscribe`: delegates to the default bus's method. -/
def Subscribe {τ : Type} [DecidableEq τ] (g : Option (Bus τ)) (t : τ) (h : HandlerId) :
    Option (Bus τ) × UnsubscribeCap τ :=
  let r := (getDefaultBus g).Subscribe t h
  (some r.1, r.2)

/-- Go module-level `Publish`: delegates to the default bus's method. -/
def Publish {τ ν : Type} [DecidableEq τ] (env : HandlerEnv τ ν) (g : Option (Bus τ))
    (t : τ) (v : ν) (flags : List PublishFlag) : Option (Bus τ) × PublishResult τ :=
  let r := Bus.Publish env (getDefaultBus g) t v flags
  (some r.bus, r)

/-- Go module-level `Unsubscribe`: `func Unsubscribe(t interface{}, h Handler)
{ getDefaultBus().Unsubscribe(t, h) }`.  Its doc comment promises "returning
true on success", but the function has no return value: the method's boolean
result is discarded, so the model returns only the updated global state. -/
def Unsubscribe {τ : Type} [DecidableEq τ] (g : Option (Bus τ)) (t : τ) (h : HandlerId) :
    Option (Bus τ) :=
  some ((getDefaultBus g).Unsubscribe t h).1

end DefaultBus

/-! ## `SubscribeFunc` and handler allocation

Go's `SubscribeFunc` executes `hf := HandlerFunc(h); return b.Subscribe(t,
&hf)`: `hf` is a fresh stack/heap cell per call, so `&hf` is a pointer
distinct from every handler reference already stored anywhere — even when the
same underlying function `h` is wrapped twice.  Fresh allocation is modelled
by a counter `fresh` carried next to the bus: every identity ever stored is
below `fresh`, and each `SubscribeFunc` call hands out `fresh` and bumps it.
The wrapped function itself does not participate in identity at all, which is
why it is absent from the model of the registration. -/

/-- A bus together with its allocation frontier: all stored handler
identities are `< fresh` (the model of "pointers already in use"). -/
structure ABus (τ : Type) where
  bus : Bus τ
  fresh : HandlerId
deriving DecidableEq

/-- Every handler identity stored in the map is below the frontier. -/
def ABus.WellAlloc {τ : Type} (a : ABus τ) : Prop :=
  ∀ p ∈ a.bus.topics, ∀ h ∈ p.2, h < a.fresh

/-- Go: `func (b *Bus) SubscribeFunc(t interface{}, h func(...)) UnsubscribeFunc`
— wrap `h` in a freshly allocated `HandlerFunc` cell and subscribe its
address.  Returns the new state, the fresh wrapper identity, and the
capability (which captures that exact wrapper). -/
def ABus.SubscribeFunc {τ : Type} [DecidableEq τ] (a : ABus τ) (t : τ) :
    ABus τ × HandlerId × UnsubscribeCap τ :=
  (⟨(a.bus.Subscribe t a.fresh).1, a.fresh + 1⟩, a.fresh, ⟨t, a.fresh⟩)

/-! ## `OnceFunc` -/

/-- Modelled from the spec: `OnceFunc` is absent from the sources (only its
test `TestOnce` appears); per the spec it is "a wrapper that captures its own
unsubscribe capability and calls it after delegating to the wrapped
function", registered through `SubscribeFunc`.  With a wrapped function that
makes no bus calls (as in `TestOnce`), the wrapper `w`'s only reentrant bus
action on invocation is the single self-unsubscribe `Unsubscribe(t, w)`. -/
def onceRemovalEnv {τ : Type} [DecidableEq τ] (t : τ) (w : HandlerId) :
    HandlerId → List (τ × HandlerId) :=
  fun h => if h = w then [(t, w)] else []

/-- Modelled from the spec: registering the once wrapper `w` on topic `t` is
an ordinary subscription of the fresh wrapper identity. -/
def OnceFunc {τ : Type} [DecidableEq τ] (b : Bus τ) (t : τ) (w : HandlerId) : Bus τ :=
  (b.Subscribe t w).1

/-! ## Operation sequences and reachable states -/

/-- One client call on a bus (the API surface that mutates state). -/
inductive Op (τ ν : Type) where
  | sub (t : τ) (h : HandlerId)
  | unsub (t : τ) (h : HandlerId)
  | pub (env : HandlerEnv τ ν) (t : τ) (v : ν) (flags : List PublishFlag)
  | puball (v : ν)

/-- Run one client call (list-model state effect). -/
def runOp {τ ν : Type} [DecidableEq τ] (b : Bus τ) : Op τ ν → Bus τ
  | .sub t h => (b.Subscribe t h).1
  | .unsub t h => (b.Unsubscribe t h).1
  | .pub env t v flags => (Bus.Publish env b t v flags).bus
  | .puball v => (b.PublishAll v).bus

/-- Run a sequence of client calls. -/
def runOps {τ ν : Type} [DecidableEq τ] (b : Bus τ) (ops : List (Op τ ν)) : Bus τ :=
  ops.foldl runOp b

/-- Holds when `op` never subscribes the exact handler reference `h0` to topic `t0` —
neither directly nor through a handler body it invokes. -/
def avoidsSub {τ ν : Type} (t0 : τ) (h0 : HandlerId) : Op τ ν → Prop
  | .sub t h => ¬(t = t0 ∧ h = h0)
  | .unsub _ _ => True
  | .pub env _ _ _ => ∀ h2 t2 v2, BusOp.subscribe t0 h0 ∉ env h2 t2 v2
  | .puball _ => True

/-- Bus states reachable from `NewBus()` by client calls.  The extra `op`
constructor closes the set under single reentrant calls in any order, so it
also covers executions whose reentrant interleaving differs from the
list-model `pub` constructor. -/
inductive Reachable {τ : Type} [DecidableEq τ] : Bus τ → Prop where
  | new : Reachable NewBus
  | sub {b : Bus τ} (t : τ) (h : HandlerId) :
      Reachable b → Reachable (b.Subscribe t h).1
  | unsub {b : Bus τ} (t : τ) (h : HandlerId) :
      Reachable b → Reachable (b.Unsubscribe t h).1
  | pub {b : Bus τ} {ν : Type} (env : HandlerEnv τ ν) (t : τ) (v : ν)
      (flags : List PublishFlag) :
      Reachable b → Reachable (Bus.Publish env b t v flags).bus
  | puball {b : Bus τ} {ν : Type} (v : ν) :
      Reachable b → Reachable (b.PublishAll v).bus
  | op {b : Bus τ} (o : BusOp τ) : Reachable b → Reachable (applyOp b o)

/-! ## Invariants of Go maps and of the bus, and concrete handler environments -/

/-- A Go map cannot hold two entries with the same key; every association
list that models a `map[interface{}][]Handler` satisfies this. -/
def KeysND {τ : Type} (ts : Topics τ) : Prop := (ts.map Prod.fst).Nodup

/-- Every entry of the topic map has a non-empty handler list. -/
def AllNonEmpty {τ : Type} (ts : Topics τ) : Prop := ∀ p ∈ ts, p.2 ≠ []

/-- A handler environment whose handler bodies make no bus calls. -/
def noopEnv : HandlerEnv Nat Nat := fun _ _ _ => []

/-- Handler bodies for the reentrancy scenario: handler `1`'s `On` calls
`b.Unsubscribe(0, handler2)` on the bus it was invoked from; every other
handler body does nothing. -/
def reentrantRemovalEnv : HandlerId → List (Nat × HandlerId) :=
  fun h => if h = 1 then [(0, 2)] else []

/-! ## Basic lemmas about the map operations -/

theorem removeFirst_eq_none_iff (hs : List HandlerId) (h : HandlerId) :
    removeFirst hs h = none ↔ h ∉ hs := by
  induction hs with
  | nil => simp [removeFirst]
  | cons h2 rest ih =>
      by_cases hEq : h2 = h
      · subst hEq; simp [removeFirst]
      · simp [removeFirst, hEq, ih, Ne.symm hEq]

theorem removeFirst_decomp {hs : List HandlerId} {h : HandlerId} (hm : h ∈ hs) :
    ∃ l1 l2, hs = l1 ++ h :: l2 ∧ h ∉ l1 ∧ removeFirst hs h = some (l1 ++ l2) := by
  induction hs with
  | nil => cases hm
  | cons h2 rest ih =>
      by_cases hEq : h2 = h
      · subst hEq
        exact ⟨[], rest, rfl, List.not_mem_nil h2, by simp [removeFirst]⟩
      · have hmr : h ∈ rest := by
          rcases List.mem_cons.mp hm with h1 | h1
          · exact absurd h1.symm hEq
          · exact h1
        rcases ih hmr with ⟨l1, l2, hdec, hnm, hrf⟩
        exact ⟨h2 :: l1, l2, by simp [hdec], by simp [hnm, Ne.symm hEq],
          by simp [removeFirst, hEq, hrf]⟩

theorem findList_nil {τ : Type} [DecidableEq τ] (t : τ) :
    findList ([] : Topics τ) t = [] := rfl

theorem findTopic_subTopics_self {τ : Type} [DecidableEq τ] (ts : Topics τ)
    (t : τ) (h : HandlerId) :
    findTopic (subTopics ts t h) t = some (findList ts t ++ [h]) := by
  induction ts with
  | nil => simp [subTopics, findTopic, findList]
  | cons p rest ih =>
      obtain ⟨t2, hs⟩ := p
      by_cases hEq : t2 = t
      · subst hEq; simp [subTopics, findTopic, findList]
      · simp [subTopics, findTopic, hEq, ih, findList]

theorem findTopic_subTopics_other {τ : Type} [DecidableEq τ] (ts : Topics τ)
    {t t2 : τ} (h : HandlerId) (hne : t2 ≠ t) :
    findTopic (subTopics ts t h) t2 = findTopic ts t2 := by
  induction ts with
  | nil => simp [subTopics, findTopic, Ne.symm hne]
  | cons p rest ih =>
      obtain ⟨t3, hs⟩ := p
      by_cases hEq : t3 = t
      · subst hEq; simp [subTopics, findTopic, Ne.symm hne]
      · by_cases hEq2 : t3 = t2
        · subst hEq2; simp [subTopics, findTopic, hEq]
        · simp [subTopics, findTopic, hEq, hEq2, ih]

theorem unsubTopics_not_found {τ : Type} [DecidableEq τ] {ts : Topics τ}
    {t : τ} {h : HandlerId} (hnm : h ∉ findList ts t) :
    unsubTopics ts t h = (ts, false) := by
  induction ts with
  | nil => rfl
  | cons p rest ih =>
      obtain ⟨t2, hs⟩ := p
      by_cases hEq : t2 = t
      · subst hEq
        have hls : findList ((t2, hs) :: rest) t2 = hs := by
          simp [findList, findTopic]
        rw [hls] at hnm
        have : removeFirst hs h = none := (removeFirst_eq_none_iff hs h).mpr hnm
        simp [unsubTopics, this]
      · have hls : findList ((t2, hs) :: rest) t = findList rest t := by
          simp [findList, findTopic, hEq]
        rw [hls] at hnm
        simp [unsubTopics, hEq, ih hnm]

theorem unsubTopics_snd_iff {τ : Type} [DecidableEq τ] (ts : Topics τ)
    (t : τ) (h : HandlerId) :
    (unsubTopics ts t h).2 = true ↔ h ∈ findList ts t := by
  induction ts with
  | nil => simp [unsubTopics, findList, findTopic]
  | cons p rest ih =>
      obtain ⟨t2, hs⟩ := p
      by_cases hEq : t2 = t
      · subst hEq
        cases hrf : removeFirst hs h with
        | none =>
            have := (removeFirst_eq_none_iff hs h).mp hrf
            simp [unsubTopics, hrf, findList, findTopic, this]
        | some hs2 =>
            have : h ∈ hs := by
              by_contra hcon
              rw [(removeFirst_eq_none_iff hs h).mpr hcon] at hrf
              cases hrf
            simp [unsubTopics, hrf, findList, findTopic, this]
      · simp [unsubTopics, hEq, findList, findTopic, ih]

theorem findTopic_unsubTopics_other {τ : Type} [DecidableEq τ] (ts : Topics τ)
    {t t2 : τ} (h : HandlerId) (hne : t2 ≠ t) :
    findTopic (unsubTopics ts t h).1 t2 = findTopic ts t2 := by
  induction ts with
  | nil => rfl
  | cons p rest ih =>
      obtain ⟨t3, hs⟩ := p
      by_cases hEq : t3 = t
      · subst hEq
        cases hrf : removeFirst hs h with
        | none => simp [unsubTopics, hrf]
        | some hs2 =>
            by_cases h2 : hs2 = []
            · simp [unsubTopics, hrf, h2, findTopic, Ne.symm hne]
            · simp [unsubTopics, hrf, h2, findTopic, Ne.symm hne]
      · by_cases hEq2 : t3 = t2
        · subst hEq2; simp [unsubTopics, hEq, findTopic]
        · simp [unsubTopics, hEq, findTopic, hEq2, ih]

theorem findTopic_eq_none_iff {τ : Type} [DecidableEq τ] (ts : Topics τ) (t : τ) :
    findTopic ts t = none ↔ t ∉ ts.map Prod.fst := by
  induction ts with
  | nil => simp [findTopic]
  | cons p rest ih =>
      obtain ⟨t2, hs⟩ := p
      by_cases hEq : t2 = t
      · subst hEq; simp [findTopic]
      · simp [findTopic, hEq, ih, Ne.symm hEq]

theorem findTopic_mem {τ : Type} [DecidableEq τ] {ts : Topics τ} {t : τ}
    {hs : List HandlerId} (hf : findTopic ts t = some hs) : (t, hs) ∈ ts := by
  induction ts with
  | nil => cases hf
  | cons p rest ih =>
      obtain ⟨t2, hs2⟩ := p
      by_cases hEq : t2 = t
      · subst hEq
        simp [findTopic] at hf
        subst hf
        exact List.mem_cons_self _ _
      · simp [findTopic, hEq] at hf
        exact List.mem_cons_of_mem _ (ih hf)

theorem keys_subTopics {τ : Type} [DecidableEq τ] (ts : Topics τ)
    (t : τ) (h : HandlerId) :
    (subTopics ts t h).map Prod.fst =
      (if findTopic ts t = none then ts.map Prod.fst ++ [t] else ts.map Prod.fst) := by
  induction ts with
  | nil => simp [subTopics, findTopic]
  | cons p rest ih =>
      obtain ⟨t2, hs⟩ := p
      by_cases hEq : t2 = t
      · subst hEq; simp [subTopics, findTopic]
      · by_cases hf : findTopic rest t = none
        · simp [subTopics, findTopic, hEq, hf, ih]
        · simp [subTopics, findTopic, hEq, hf, ih]

theorem KeysND_subTopics {τ : Type} [DecidableEq τ] {ts : Topics τ}
    (t : τ) (h : HandlerId) (knd : KeysND ts) : KeysND (subTopics ts t h) := by
  unfold KeysND
  rw [keys_subTopics]
  by_cases hf : findTopic ts t = none
  · rw [if_pos hf]
    refine List.Nodup.append knd (List.nodup_singleton t) ?_
    intro a ha hb
    rw [List.mem_singleton] at hb
    subst hb
    exact (findTopic_eq_none_iff ts a).mp hf ha
  · rw [if_neg hf]
    exact knd

theorem keys_unsubTopics_sublist {τ : Type} [DecidableEq τ] (ts : Topics τ)
    (t : τ) (h : HandlerId) :
    ((unsubTopics ts t h).1.map Prod.fst).Sublist (ts.map Prod.fst) := by
  induction ts with
  | nil => simp [unsubTopics]
  | cons p rest ih =>
      obtain ⟨t2, hs⟩ := p
      by_cases hEq : t2 = t
      · subst hEq
        cases hrf : removeFirst hs h with
        | none => simp [unsubTopics, hrf]
        | some hs2 =>
            by_cases h2 : hs2 = []
            · simp only [unsubTopics, hrf, h2, if_pos, List.map_cons]
              exact (List.Sublist.refl _).cons t2
            · simp [unsubTopics, hrf, h2]
      · simpa [unsubTopics, hEq] using ih.cons₂ t2

theorem KeysND_unsubTopics {τ : Type} [DecidableEq τ] {ts : Topics τ}
    (t : τ) (h : HandlerId) (knd : KeysND ts) : KeysND (unsubTopics ts t h).1 :=
  List.Nodup.sublist (keys_unsubTopics_sublist ts t h) knd

theorem findTopic_unsubTopics_self {τ : Type} [DecidableEq τ] {ts : Topics τ}
    {t : τ} {h : HandlerId} {hs2 : List HandlerId} (knd : KeysND ts)
    (hrf : removeFirst (findList ts t) h = some hs2) :
    findTopic (unsubTopics ts t h).1 t = (if hs2 = [] then none else some hs2) := by
  induction ts with
  | nil => cases hrf
  | cons p rest ih =>
      obtain ⟨t2, hs⟩ := p
      have knd2 : KeysND rest := (List.nodup_cons.mp knd).2
      have hkn : t2 ∉ rest.map Prod.fst := (List.nodup_cons.mp knd).1
      by_cases hEq : t2 = t
      · subst hEq
        have hls : findList ((t2, hs) :: rest) t2 = hs := by
          simp [findList, findTopic]
        rw [hls] at hrf
        have hrn : findTopic rest t2 = none := (findTopic_eq_none_iff rest t2).mpr hkn
        by_cases h2 : hs2 = []
        · simp [unsubTopics, hrf, h2, hrn]
        · simp [unsubTopics, hrf, h2, findTopic]
      · have hls : findList ((t2, hs) :: rest) t = findList rest t := by
          simp [findList, findTopic, hEq]
        rw [hls] at hrf
        simpa [unsubTopics, hEq, findTopic] using ih knd2 hrf

/-! ## Invariant preservation -/

theorem AllNonEmpty_subTopics {τ : Type} [DecidableEq τ] {ts : Topics τ}
    (t : τ) (h : HandlerId) (hne : AllNonEmpty ts) : AllNonEmpty (subTopics ts t h) := by
  induction ts with
  | nil =>
      intro p hp
      simp [subTopics] at hp
      subst hp
      simp
  | cons q rest ih =>
      obtain ⟨t2, hs⟩ := q
      have hne2 : AllNonEmpty rest := fun p hp => hne p (List.mem_cons_of_mem _ hp)
      by_cases hEq : t2 = t
      · subst hEq
        intro p hp
        simp [subTopics] at hp
        rcases hp with hp | hp
        · subst hp; simp
        · exact hne2 p hp
      · intro p hp
        simp only [subTopics, hEq, if_neg] at hp
        rcases List.mem_cons.mp hp with hp2 | hp2
        · subst hp2
          exact hne (t2, hs) (List.mem_cons_self _ _)
        · exact ih hne2 p hp2

theorem AllNonEmpty_unsubTopics {τ : Type} [DecidableEq τ] {ts : Topics τ}
    (t : τ) (h : HandlerId) (hne : AllNonEmpty ts) :
    AllNonEmpty (unsubTopics ts t h).1 := by
  induction ts with
  | nil =>
      intro p hp
      simp [unsubTopics] at hp
  | cons q rest ih =>
      obtain ⟨t2, hs⟩ := q
      have hne2 : AllNonEmpty rest := fun p hp => hne p (List.mem_cons_of_mem _ hp)
      by_cases hEq : t2 = t
      · subst hEq
        cases hrf : removeFirst hs h with
        | none =>
            intro p hp
            simp only [unsubTopics, hrf] at hp
            exact hne p hp
        | some hs2 =>
            by_cases h2 : hs2 = []
            · intro p hp
              simp only [unsubTopics, hrf, h2, if_pos] at hp
              exact hne2 p hp
            · intro p hp
              simp only [unsubTopics, hrf, if_neg h2] at hp
              rcases List.mem_cons.mp hp with hp2 | hp2
              · subst hp2; exact h2
              · exact hne2 p hp2
      · intro p hp
        simp only [unsubTopics, hEq, if_neg] at hp
        rcases List.mem_cons.mp hp with hp2 | hp2
        · subst hp2
          exact hne (t2, hs) (List.mem_cons_self _ _)
        · exact ih hne2 p hp2

theorem AllNonEmpty_applyOp {τ : Type} [DecidableEq τ] {b : Bus τ} (o : BusOp τ)
    (hne : AllNonEmpty b.topics) : AllNonEmpty (applyOp b o).topics := by
  cases o with
  | subscribe t h => exact AllNonEmpty_subTopics t h hne
  | unsubscribe t h => exact AllNonEmpty_unsubTopics t h hne

theorem KeysND_applyOp {τ : Type} [DecidableEq τ] {b : Bus τ} (o : BusOp τ)
    (knd : KeysND b.topics) : KeysND (applyOp b o).topics := by
  cases o with
  | subscribe t h => exact KeysND_subTopics t h knd
  | unsubscribe t h => exact KeysND_unsubTopics t h knd

theorem inv_foldl_applyOp {τ : Type} [DecidableEq τ] (ops : List (BusOp τ)) :
    ∀ b : Bus τ, AllNonEmpty b.topics → KeysND b.topics →
      AllNonEmpty (ops.foldl applyOp b).topics ∧ KeysND (ops.foldl applyOp b).topics := by
  induction ops with
  | nil => exact fun b hne knd => ⟨hne, knd⟩
  | cons o rest ih =>
      intro b hne knd
      exact ih (applyOp b o) (AllNonEmpty_applyOp o hne) (KeysND_applyOp o knd)

theorem KeysND_foldl_applyOp {τ : Type} [DecidableEq τ] (ops : List (BusOp τ)) :
    ∀ b : Bus τ, KeysND b.topics → KeysND ((ops.foldl applyOp b)).topics := by
  induction ops with
  | nil => exact fun b knd => knd
  | cons o rest ih => exact fun b knd => ih (applyOp b o) (KeysND_applyOp o knd)

theorem inv_runHandler {τ ν : Type} [DecidableEq τ] (env : HandlerEnv τ ν)
    (t : τ) (v : ν) {b : Bus τ} (h : HandlerId)
    (hne : AllNonEmpty b.topics) (knd : KeysND b.topics) :
    AllNonEmpty (runHandler env t v b h).topics ∧ KeysND (runHandler env t v b h).topics :=
  inv_foldl_applyOp (env h t v) b hne knd

theorem inv_foldl_runHandler {τ ν : Type} [DecidableEq τ] (env : HandlerEnv τ ν)
    (t : τ) (v : ν) (hs : List HandlerId) :
    ∀ b : Bus τ, AllNonEmpty b.topics → KeysND b.topics →
      AllNonEmpty ((hs.foldl (runHandler env t v) b)).topics
      ∧ KeysND ((hs.foldl (runHandler env t v) b)).topics := by
  induction hs with
  | nil => exact fun b hne knd => ⟨hne, knd⟩
  | cons h rest ih =>
      intro b hne knd
      have h2 := inv_runHandler env t v h hne knd
      exact ih (runHandler env t v b h) h2.1 h2.2

theorem inv_Publish {τ ν : Type} [DecidableEq τ] (env : HandlerEnv τ ν)
    {b : Bus τ} (t : τ) (v : ν) (flags : List PublishFlag)
    (hne : AllNonEmpty b.topics) (knd : KeysND b.topics) :
    AllNonEmpty (Bus.Publish env b t v flags).bus.topics
    ∧ KeysND (Bus.Publish env b t v flags).bus.topics := by
  unfold Bus.Publish
  by_cases hf : combineFlags flags &&& Async ≠ 0
  · simpa [hf] using ⟨hne, knd⟩
  · simpa [hf] using inv_foldl_runHandler env t v (findList b.topics t) b hne knd

theorem Reachable_inv {τ : Type} [DecidableEq τ] {b : Bus τ} (hr : Reachable b) :
    AllNonEmpty b.topics ∧ KeysND b.topics := by
  induction hr with
  | new => exact ⟨fun p hp => absurd hp (List.not_mem_nil p), List.nodup_nil⟩
  | sub t h _ ih => exact ⟨AllNonEmpty_subTopics t h ih.1, KeysND_subTopics t h ih.2⟩
  | unsub t h _ ih => exact ⟨AllNonEmpty_unsubTopics t h ih.1, KeysND_unsubTopics t h ih.2⟩
  | pub env t v flags _ ih => exact inv_Publish env t v flags ih.1 ih.2
  | puball v _ ih => exact ih
  | op o _ ih => exact ⟨AllNonEmpty_applyOp o ih.1, KeysND_applyOp o ih.2⟩

/-! ## Absence of a handler from a topic is preserved by avoiding operations -/

theorem notMem_findList_subTopics {τ : Type} [DecidableEq τ] {ts : Topics τ}
    {t t0 : τ} {h h0 : HandlerId} (hav : ¬(t = t0 ∧ h = h0))
    (hnm : h0 ∉ findList ts t0) : h0 ∉ findList (subTopics ts t h) t0 := by
  by_cases hEq : t = t0
  · subst hEq
    have hh : h ≠ h0 := fun hc => hav ⟨rfl, hc⟩
    have : findList (subTopics ts t h) t = findList ts t ++ [h] := by
      simp [findList, findTopic_subTopics_self]
    rw [this]
    intro hc
    rcases List.mem_append.mp hc with hc2 | hc2
    · exact hnm hc2
    · rw [List.mem_singleton] at hc2
      exact hh hc2.symm
  · have : findList (subTopics ts t h) t0 = findList ts t0 := by
      simp [findList, findTopic_subTopics_other ts h (Ne.symm hEq)]
    rw [this]
    exact hnm

theorem notMem_findList_unsubTopics {τ : Type} [DecidableEq τ] {ts : Topics τ}
    {t t0 : τ} {h h0 : HandlerId} (knd : KeysND ts)
    (hnm : h0 ∉ findList ts t0) : h0 ∉ findList (unsubTopics ts t h).1 t0 := by
  by_cases hEq : t = t0
  · subst hEq
    cases hrf : removeFirst (findList ts t) h with
    | none =>
        rw [unsubTopics_not_found ((removeFirst_eq_none_iff _ _).mp hrf)]
        exact hnm
    | some hs2 =>
        have hmem : h ∈ findList ts t := by
          by_contra hc
          rw [(removeFirst_eq_none_iff _ _).mpr hc] at hrf
          cases hrf
        rcases removeFirst_decomp hmem with ⟨l1, l2, hdec, _, hrf2⟩
        rw [hrf2] at hrf
        injection hrf with hrf3
        subst hrf3
        have hself := findTopic_unsubTopics_self knd hrf2
        by_cases h2 : l1 ++ l2 = []
        · simp [findList, hself, h2]
        · rw [findList, hself, if_neg h2]
          simp only [Option.getD_some]
          rw [hdec] at hnm
          intro hc
          rcases List.mem_append.mp hc with hc2 | hc2
          · exact hnm (List.mem_append.mpr (Or.inl hc2))
          · exact hnm (List.mem_append.mpr (Or.inr (List.mem_cons_of_mem _ hc2)))
  · have : findList (unsubTopics ts t h).1 t0 = findList ts t0 := by
      simp [findList, findTopic_unsubTopics_other ts h (Ne.symm hEq)]
    rw [this]
    exact hnm

theorem notMem_foldl_applyOp {τ : Type} [DecidableEq τ] {t0 : τ} {h0 : HandlerId}
    (ops : List (BusOp τ)) (hav : BusOp.subscribe t0 h0 ∉ ops) :
    ∀ b : Bus τ, KeysND b.topics → h0 ∉ findList b.topics t0 →
      h0 ∉ findList (ops.foldl applyOp b).topics t0 := by
  induction ops with
  | nil => exact fun b _ hnm => hnm
  | cons o rest ih =>
      intro b knd hnm
      have hav2 : BusOp.subscribe t0 h0 ∉ rest := fun hc => hav (List.mem_cons_of_mem _ hc)
      have knd2 : KeysND (applyOp b o).topics := KeysND_applyOp o knd
      refine ih hav2 (applyOp b o) knd2 ?_
      cases o with
      | subscribe t h =>
          refine notMem_findList_subTopics ?_ hnm
          rintro ⟨rfl, rfl⟩
          exact hav (List.mem_cons_self _ _)
      | unsubscribe t h => exact notMem_findList_unsubTopics knd hnm

theorem notMem_foldl_runHandler {τ ν : Type} [DecidableEq τ] {t0 : τ} {h0 : HandlerId}
    (env : HandlerEnv τ ν) (t : τ) (v : ν)
    (hav : ∀ h2 t2 v2, BusOp.subscribe t0 h0 ∉ env h2 t2 v2) (hs : List HandlerId) :
    ∀ b : Bus τ, KeysND b.topics → h0 ∉ findList b.topics t0 →
      h0 ∉ findList ((hs.foldl (runHandler env t v) b)).topics t0 := by
  induction hs with
  | nil => exact fun b _ hnm => hnm
  | cons h rest ih =>
      intro b knd hnm
      exact ih (runHandler env t v b h) (KeysND_foldl_applyOp (env h t v) b knd)
        (notMem_foldl_applyOp (env h t v) (hav h t v) b knd hnm)

theorem notMem_runOp {τ ν : Type} [DecidableEq τ] {t0 : τ} {h0 : HandlerId}
    {b : Bus τ} (o : Op τ ν) (knd : KeysND b.topics) (hav : avoidsSub t0 h0 o)
    (hnm : h0 ∉ findList b.topics t0) : h0 ∉ findList (runOp b o).topics t0 := by
  cases o with
  | sub t h => exact notMem_findList_subTopics hav hnm
  | unsub t h => exact notMem_findList_unsubTopics knd hnm
  | pub env t v flags =>
      show h0 ∉ findList (Bus.Publish env b t v flags).bus.topics t0
      unfold Bus.Publish
      by_cases hf : combineFlags flags &&& Async ≠ 0
      · simpa [hf] using hnm
      · simpa [hf] using
          notMem_foldl_runHandler env t v hav (findList b.topics t) b knd hnm
  | puball v => exact hnm

theorem KeysND_runOp {τ ν : Type} [DecidableEq τ] {b : Bus τ} (o : Op τ ν)
    (knd : KeysND b.topics) (hne : AllNonEmpty b.topics) :
    KeysND (runOp b o).topics ∧ AllNonEmpty (runOp b o).topics := by
  cases o with
  | sub t h => exact ⟨KeysND_subTopics t h knd, AllNonEmpty_subTopics t h hne⟩
  | unsub t h => exact ⟨KeysND_unsubTopics t h knd, AllNonEmpty_unsubTopics t h hne⟩
  | pub env t v flags =>
      have := inv_Publish env t v flags hne knd
      exact ⟨this.2, this.1⟩
  | puball v => exact ⟨knd, hne⟩

theorem notMem_runOps {τ ν : Type} [DecidableEq τ] {t0 : τ} {h0 : HandlerId}
    (ops : List (Op τ ν)) (hav : ∀ o ∈ ops, avoidsSub t0 h0 o) :
    ∀ b : Bus τ, KeysND b.topics → AllNonEmpty b.topics → h0 ∉ findList b.topics t0 →
      h0 ∉ findList (runOps b ops).topics t0 := by
  induction ops with
  | nil => exact fun b _ _ hnm => hnm
  | cons o rest ih =>
      intro b knd hne hnm
      have h2 := KeysND_runOp o knd hne
      exact ih (fun o2 ho2 => hav o2 (List.mem_cons_of_mem _ ho2)) (runOp b o)
        h2.1 h2.2 (notMem_runOp o knd (hav o (List.mem_cons_self _ _)) hnm)

/-! ## Occurrence counts and remaining helpers -/

theorem count_findList_unsubTopics {τ : Type} [DecidableEq τ] {ts : Topics τ}
    {t : τ} {h w : HandlerId} (knd : KeysND ts) (hne : h ≠ w) :
    (findList (unsubTopics ts t h).1 t).count w = (findList ts t).count w := by
  cases hrf : removeFirst (findList ts t) h with
  | none =>
      rw [unsubTopics_not_found ((removeFirst_eq_none_iff _ _).mp hrf)]
  | some hs2 =>
      have hmem : h ∈ findList ts t := by
        by_contra hc
        rw [(removeFirst_eq_none_iff _ _).mpr hc] at hrf
        cases hrf
      rcases removeFirst_decomp hmem with ⟨l1, l2, hdec, _, hrf2⟩
      rw [hrf2] at hrf
      injection hrf with hrf3
      subst hrf3
      have hself := findTopic_unsubTopics_self knd hrf2
      by_cases h2 : l1 ++ l2 = []
      · rcases List.append_eq_nil.mp h2 with ⟨hl1, hl2⟩
        subst hl1; subst hl2
        rw [findList, hself]
        simp [hdec, List.count_cons, Ne.symm hne]
      · rw [findList, hself, if_neg h2, Option.getD_some, hdec]
        rw [List.count_append, List.count_append, List.count_cons_of_ne (Ne.symm hne)]

theorem findTopic_eraseKey_self {τ : Type} [DecidableEq τ] (ts : Topics τ) (t : τ) :
    findTopic (eraseKey ts t) t = none := by
  induction ts with
  | nil => rfl
  | cons p rest ih =>
      obtain ⟨t2, hs⟩ := p
      by_cases hEq : t2 = t
      · simpa [eraseKey, hEq] using ih
      · simpa [eraseKey, findTopic, hEq] using ih

theorem pubAllFold_count {τ : Type} (ts : Topics τ) :
    ∀ (n : Nat) (l : List (τ × HandlerId)),
      (ts.foldl (fun (acc : Nat × List (τ × HandlerId)) p =>
        (acc.1 + p.2.length, acc.2 ++ p.2.map (fun h => (p.1, h)))) (n, l)).1
      = n + (ts.map (fun p => p.2.length)).sum := by
  induction ts with
  | nil => simp
  | cons p rest ih =>
      intro n l
      simp only [List.foldl_cons, List.map_cons, List.sum_cons]
      rw [ih]
      omega

theorem pubAllFold_spawned {τ : Type} (ts : Topics τ) (h : HandlerId) :
    ∀ (n : Nat) (l : List (τ × HandlerId)),
      (((ts.foldl (fun (acc : Nat × List (τ × HandlerId)) p =>
        (acc.1 + p.2.length, acc.2 ++ p.2.map (fun h => (p.1, h)))) (n, l)).2).map Prod.snd).count h
      = (l.map Prod.snd).count h + (ts.map (fun p => p.2.count h)).sum := by
  induction ts with
  | nil => simp
  | cons p rest ih =>
      intro n l
      simp only [List.foldl_cons, List.map_cons, List.sum_cons]
      rw [ih]
      have : ((l ++ p.2.map (fun h => (p.1, h))).map Prod.snd).count h
          = (l.map Prod.snd).count h + p.2.count h := by
        rw [List.map_append, List.count_append]
        congr 1
        rw [List.map_map]
        simp [Function.comp]
      rw [this]
      omega

/-! ## Claim theorems -/

/-- C1: the claim states that a synchronous `Publish` invokes exactly the
snapshotted handlers, each exactly once, in order, unaffected by removals
performed reentrantly by the invoked handlers.  The code violates this: the
snapshot `hs := b.topics[t]` shares its backing array with `topics[t]`, and a
reentrant `Unsubscribe` shifts that array in place underneath the running
loop.  Concretely: subscribing handlers 1, 2, 3 to topic 0 (three plain
`Subscribe` calls) and publishing synchronously while handler 1's body
removes handler 2 makes the publish invoke handlers 1, 3, 3 — handler 2
(a member of the snapshot) is never invoked and handler 3 is invoked twice —
while the returned count is still 3. -/
theorem C1_reentrant_removal_corrupts_snapshot :
    ((((NewBus : Bus Nat).Subscribe 0 1).1.Subscribe 0 2).1.Subscribe 0 3).1
        = ⟨[(0, [1, 2, 3])]⟩
    ∧ findList (⟨[(0, [1, 2, 3])]⟩ : Bus Nat).topics 0 = [1, 2, 3]
    ∧ (publishAliased reentrantRemovalEnv ⟨[(0, [1, 2, 3])]⟩ 0).1 = [1, 3, 3]
    ∧ (publishAliased reentrantRemovalEnv ⟨[(0, [1, 2, 3])]⟩ 0).1 ≠ [1, 2, 3]
    ∧ (publishAliased reentrantRemovalEnv ⟨[(0, [1, 2, 3])]⟩ 0).2.2 = 3 := by
  decide

/-- C3: the claim states that every module-level function returns the same
result as the corresponding method on the default bus, and in particular that
module-level `Unsubscribe` returns the method's boolean.  The code violates
the `Unsubscribe` part: `func Unsubscribe(t interface{}, h Handler)` has no
return value and discards the method's boolean, although its own doc comment
says "returning true on success".  At the failing input below the method
returns `true` while the module-level function yields only the mutated
default bus; `Subscribe` and `Publish` do delegate exactly. -/
theorem C3_module_unsubscribe_drops_result :
    (((NewBus : Bus Nat).Subscribe 0 7).1.Unsubscribe 0 7).2 = true
    ∧ DefaultBus.Unsubscribe (some ((NewBus : Bus Nat).Subscribe 0 7).1) 0 7
        = some (((NewBus : Bus Nat).Subscribe 0 7).1.Unsubscribe 0 7).1
    ∧ DefaultBus.Subscribe (some ((NewBus : Bus Nat).Subscribe 0 7).1) 1 8
        = (some (((NewBus : Bus Nat).Subscribe 0 7).1.Subscribe 1 8).1,
           (((NewBus : Bus Nat).Subscribe 0 7).1.Subscribe 1 8).2)
    ∧ DefaultBus.Publish noopEnv (some ((NewBus : Bus Nat).Subscribe 0 7).1) 0 3 []
        = (some (Bus.Publish noopEnv ((NewBus : Bus Nat).Subscribe 0 7).1 0 3 []).bus,
           Bus.Publish noopEnv ((NewBus : Bus Nat).Subscribe 0 7).1 0 3 []) := by
  decide

/-- C2: `Unsubscribe(t, h)` succeeds exactly when `h` (by identity) occurs in
`t`'s list; on success it removes precisely the first occurrence, keeps the
order of the rest, deletes the topic key when the list empties, and leaves
every other topic untouched; when nothing is found it returns `false` and
leaves the bus exactly as it was.  (The identity hypothesis `KeysND` records
that a Go map cannot hold a key twice.) -/
theorem C2_unsubscribe_first_occurrence {τ : Type} [DecidableEq τ] (b : Bus τ)
    (t : τ) (h : HandlerId) (knd : KeysND b.topics) :
    ((b.Unsubscribe t h).2 = true ↔ h ∈ findList b.topics t)
    ∧ (h ∉ findList b.topics t → b.Unsubscribe t h = (b, false))
    ∧ (h ∈ findList b.topics t →
        ∃ l1 l2, findList b.topics t = l1 ++ h :: l2 ∧ h ∉ l1
          ∧ (b.Unsubscribe t h).2 = true
          ∧ findTopic ((b.Unsubscribe t h).1).topics t
              = (if l1 ++ l2 = [] then none else some (l1 ++ l2))
          ∧ ∀ t2, t2 ≠ t →
              findTopic ((b.Unsubscribe t h).1).topics t2 = findTopic b.topics t2) := by
  refine ⟨unsubTopics_snd_iff b.topics t h, ?_, ?_⟩
  · intro hnm
    show (Bus.mk (unsubTopics b.topics t h).1, (unsubTopics b.topics t h).2) = (b, false)
    rw [unsubTopics_not_found hnm]
  · intro hmem
    rcases removeFirst_decomp hmem with ⟨l1, l2, hdec, hnm1, hrf⟩
    exact ⟨l1, l2, hdec, hnm1, (unsubTopics_snd_iff b.topics t h).mpr hmem,
      findTopic_unsubTopics_self knd hrf,
      fun t2 hne => findTopic_unsubTopics_other b.topics h hne⟩

/-- C2 witness: on a bus whose topic 0 holds handlers 7, 8, 7, unsubscribing
handler 7 succeeds. -/
theorem C2_unsubscribe_first_occurrence_witness :
    ((⟨[(0, [7, 8, 7])]⟩ : Bus Nat).Unsubscribe 0 7).2 = true :=
  (C2_unsubscribe_first_occurrence (⟨[(0, [7, 8, 7])]⟩ : Bus Nat) 0 7
    (by show (([(0, [7, 8, 7])] : Topics Nat).map Prod.fst).Nodup; decide)).1.mpr
    (by decide)

/-- C10: `Subscribe(t, h)` and `Unsubscribe(t, h)` leave every topic other
than `t` unchanged, and an `Unsubscribe` returning `false` leaves the whole
bus exactly as it was. -/
theorem C10_frame_effects {τ : Type} [DecidableEq τ] (b : Bus τ) (t : τ)
    (h : HandlerId) :
    (∀ t2, t2 ≠ t → findTopic ((b.Subscribe t h).1).topics t2 = findTopic b.topics t2)
    ∧ (∀ t2, t2 ≠ t → findTopic ((b.Unsubscribe t h).1).topics t2 = findTopic b.topics t2)
    ∧ ((b.Unsubscribe t h).2 = false → (b.Unsubscribe t h).1 = b) := by
  refine ⟨fun t2 hne => findTopic_subTopics_other b.topics h hne,
    fun t2 hne => findTopic_unsubTopics_other b.topics h hne, ?_⟩
  intro hf
  have hnm : h ∉ findList b.topics t := by
    intro hc
    have h2 := (unsubTopics_snd_iff b.topics t h).mpr hc
    have h3 : (b.Unsubscribe t h).2 = (unsubTopics b.topics t h).2 := rfl
    rw [h3, h2] at hf
    cases hf
  show Bus.mk (unsubTopics b.topics t h).1 = b
  rw [unsubTopics_not_found hnm]

/-- C10 witness: subscribing handler 9 to topic 0 leaves topic 1 unchanged. -/
theorem C10_frame_effects_witness :
    findTopic ((⟨[(0, [7])]⟩ : Bus Nat).Subscribe 0 9).1.topics 1
      = findTopic (⟨[(0, [7])]⟩ : Bus Nat).topics 1 :=
  (C10_frame_effects (⟨[(0, [7])]⟩ : Bus Nat) 0 9).1 1 (by decide)

/-- C6: `Publish` returns the snapshot's length as its count and a nil error
for every flag combination and every handler behaviour; publishing on a
fresh bus or on the first use of the default bus returns count 0; and
`PublishAll` never returns an error either. -/
theorem C6_publish_count_no_error {τ ν : Type} [DecidableEq τ] (env : HandlerEnv τ ν)
    (b : Bus τ) (t : τ) (v : ν) (flags : List PublishFlag) :
    (Bus.Publish env b t v flags).count = (findList b.topics t).length
    ∧ (Bus.Publish env b t v flags).err = none
    ∧ (b.PublishAll v).err = none
    ∧ (Bus.Publish env (NewBus : Bus τ) t v flags).count = 0
    ∧ (DefaultBus.Publish env (none : Option (Bus τ)) t v flags).2.count = 0
    ∧ (DefaultBus.Publish env (none : Option (Bus τ)) t v flags).2.err = none := by
  have core : ∀ b2 : Bus τ,
      (Bus.Publish env b2 t v flags).count = (findList b2.topics t).length
      ∧ (Bus.Publish env b2 t v flags).err = none := by
    intro b2
    unfold Bus.Publish
    by_cases hf : combineFlags flags &&& Async ≠ 0 <;> simp [hf]
  refine ⟨(core b).1, (core b).2, rfl, ?_, ?_, ?_⟩
  · rw [(core NewBus).1]; rfl
  · show (Bus.Publish env (getDefaultBus none) t v flags).count = 0
    rw [(core _).1]; rfl
  · show (Bus.Publish env (getDefaultBus none) t v flags).err = none
    exact (core _).2

/-- C7: `PublishAll(v)` returns the sum of the lengths of all topics' handler
lists as its count (and a nil error, and does not change the bus), and the
number of invocations it starts for a given handler equals the total number
of that handler's registrations summed over all topics — once per topic it
is subscribed to. -/
theorem C7_publishAll_total_count {τ ν : Type} (b : Bus τ) (v : ν) :
    (b.PublishAll v).count = (b.topics.map (fun p => p.2.length)).sum
    ∧ (b.PublishAll v).err = none
    ∧ (b.PublishAll v).bus = b
    ∧ ∀ h, ((b.PublishAll v).spawned.map Prod.snd).count h
          = (b.topics.map (fun p => p.2.count h)).sum := by
  refine ⟨?_, rfl, rfl, ?_⟩
  · have hc := pubAllFold_count b.topics 0 []
    simpa [Bus.PublishAll] using hc
  · intro h
    have hs := pubAllFold_spawned b.topics h 0 []
    simpa [Bus.PublishAll] using hs

/-- C4 counterexample: the claim states that once the capability's first
invocation succeeds, every later invocation returns `false` regardless of
further subscriptions of the same handler.  Concretely: subscribe handler 7
to topic 0, invoke the capability (`true`), subscribe the same handler
reference again, invoke the capability again — it returns `true`, not
`false`, because the linear search finds the re-subscribed reference. -/
theorem C4_capability_counterexample :
    ((NewBus : Bus Nat).Subscribe 0 7).2 = ⟨0, 7⟩
    ∧ (UnsubscribeCap.run ⟨0, 7⟩ ((NewBus : Bus Nat).Subscribe 0 7).1).2 = true
    ∧ (UnsubscribeCap.run ⟨0, 7⟩
        ((Bus.Subscribe
          (UnsubscribeCap.run ⟨0, 7⟩ ((NewBus : Bus Nat).Subscribe 0 7).1).1
          0 7).1)).2 = true := by
  decide

/-- C4 (amended): the capability returned by `Subscribe(t0, h0)` captures
exactly `(t0, h0)` and invoking it performs `Unsubscribe(t0, h0)` and returns
its boolean result; when `h0` occurs exactly once in `t0`'s list, the
invocation succeeds and leaves `h0` absent from `t0`; and from any state in
which `h0` is absent from `t0`, any sequence of operations none of which
re-subscribes that exact handler reference to `t0` (directly or from inside
an invoked handler body) keeps every further invocation returning `false`. -/
theorem C4_capability_idempotent_unless_resubscribed {τ : Type} [DecidableEq τ]
    (t0 : τ) (h0 : HandlerId) :
    (∀ b : Bus τ, UnsubscribeCap.run ⟨t0, h0⟩ b = b.Unsubscribe t0 h0)
    ∧ (∀ b : Bus τ, (b.Subscribe t0 h0).2 = ⟨t0, h0⟩)
    ∧ (∀ b : Bus τ, KeysND b.topics → (findList b.topics t0).count h0 = 1 →
        (UnsubscribeCap.run ⟨t0, h0⟩ b).2 = true
        ∧ h0 ∉ findList ((UnsubscribeCap.run ⟨t0, h0⟩ b).1).topics t0)
    ∧ (∀ (ν : Type) (b : Bus τ) (ops : List (Op τ ν)),
        KeysND b.topics → AllNonEmpty b.topics → h0 ∉ findList b.topics t0 →
        (∀ o ∈ ops, avoidsSub t0 h0 o) →
        (UnsubscribeCap.run ⟨t0, h0⟩ (runOps b ops)).2 = false) := by
  refine ⟨fun b => rfl, fun b => rfl, ?_, ?_⟩
  · intro b knd hcount
    have hmem : h0 ∈ findList b.topics t0 := by
      have : 0 < (findList b.topics t0).count h0 := by omega
      exact List.count_pos_iff.mp this
    rcases removeFirst_decomp hmem with ⟨l1, l2, hdec, hnm1, hrf⟩
    refine ⟨(unsubTopics_snd_iff b.topics t0 h0).mpr hmem, ?_⟩
    have hnm2 : h0 ∉ l1 ++ l2 := by
      rw [hdec, List.count_append, List.count_cons_self] at hcount
      have hc1 : l1.count h0 = 0 := by omega
      have hc2 : l2.count h0 = 0 := by omega
      intro hc
      rcases List.mem_append.mp hc with hc3 | hc3
      · exact absurd (List.count_pos_iff.mpr hc3) (by omega)
      · exact absurd (List.count_pos_iff.mpr hc3) (by omega)
    have hself := findTopic_unsubTopics_self knd hrf
    show h0 ∉ findList (unsubTopics b.topics t0 h0).1 t0
    rw [findList, hself]
    by_cases h2 : l1 ++ l2 = []
    · simp [h2]
    · rw [if_neg h2, Option.getD_some]
      exact hnm2
  · intro ν b ops knd hne hnm hav
    have habs := notMem_runOps ops hav b knd hne hnm
    show (unsubTopics (runOps b ops).topics t0 h0).2 = false
    rw [unsubTopics_not_found habs]

/-- C4 witness: handler 7 absent from topic 0; after a subscription of a
different handler to another topic and an unrelated unsubscription, the
capability still reports `false`. -/
theorem C4_capability_idempotent_unless_resubscribed_witness :
    (UnsubscribeCap.run ⟨0, 7⟩
      (runOps (⟨[(0, [5])]⟩ : Bus Nat)
        ([Op.sub 1 7, Op.unsub 0 5] : List (Op Nat Nat)))).2 = false :=
  (C4_capability_idempotent_unless_resubscribed 0 7).2.2.2 Nat (⟨[(0, [5])]⟩ : Bus Nat)
    [Op.sub 1 7, Op.unsub 0 5]
    (by show (([(0, [5])] : Topics Nat).map Prod.fst).Nodup; decide)
    (by intro p hp; simp at hp; subst hp; decide)
    (by decide)
    (by
      intro o ho
      rcases List.mem_cons.mp ho with rfl | ho2
      · exact (by decide : ¬((1 : Nat) = 0 ∧ (7 : Nat) = 7))
      · rcases List.mem_cons.mp ho2 with rfl | ho3
        · exact trivial
        · cases ho3)

/-- C5: on every bus reachable from `NewBus()` by API calls (including
reentrant ones made by handler bodies), a topic key is present iff its
handler list is non-empty; `NewBus()` has an empty mapping; and removing the
last handler of a topic deletes the topic's entry. -/
theorem C5_topic_key_iff_nonempty {τ : Type} [DecidableEq τ] {b : Bus τ}
    (hr : Reachable b) :
    (∀ t, (findTopic b.topics t).isSome ↔ findList b.topics t ≠ [])
    ∧ (NewBus : Bus τ).topics = []
    ∧ (∀ t h, findTopic b.topics t = some [h] →
        findTopic ((b.Unsubscribe t h).1).topics t = none) := by
  have hinv := Reachable_inv hr
  refine ⟨?_, rfl, ?_⟩
  · intro t
    constructor
    · intro hsome
      cases hft : findTopic b.topics t with
      | none => rw [hft] at hsome; cases hsome
      | some hs =>
          have hmem := findTopic_mem hft
          have hne := hinv.1 _ hmem
          simpa [findList, hft] using hne
    · intro hne2
      cases hft : findTopic b.topics t with
      | none => rw [findList, hft] at hne2; simp at hne2
      | some hs => simp [hft]
  · intro t h hft
    have hrf : removeFirst (findList b.topics t) h = some [] := by
      simp [findList, hft, removeFirst]
    have hself := findTopic_unsubTopics_self hinv.2 hrf
    simpa using hself

/-- C5 witness: on the reachable bus obtained by one subscription, the
key-iff-non-empty equivalence holds at topic 3. -/
theorem C5_topic_key_iff_nonempty_witness :
    (findTopic ((NewBus : Bus Nat).Subscribe 0 5).1.topics 3).isSome
      ↔ findList ((NewBus : Bus Nat).Subscribe 0 5).1.topics 3 ≠ [] :=
  (C5_topic_key_iff_nonempty (Reachable.sub 0 5 Reachable.new)).1 3

/-- C8 (OnceFunc is modelled from the spec; see `OnceFunc`): registering a
function on a previously empty topic `t` through the once wrapper makes the
first synchronous publish invoke it exactly once with returned count 1 —
the wrapper then unsubscribes itself reentrantly — and a second publish
invokes nothing and returns count 0.  Stated over the refined
backing-array model, so the reentrant self-removal is handled exactly as Go
executes it. -/
theorem C8_once_invoked_exactly_once {τ : Type} [DecidableEq τ] (b : Bus τ)
    (t : τ) (w : HandlerId) (habs : findTopic b.topics t = none) :
    (publishAliased (onceRemovalEnv t w) (OnceFunc b t w) t).1 = [w]
    ∧ (publishAliased (onceRemovalEnv t w) (OnceFunc b t w) t).2.2 = 1
    ∧ (publishAliased (onceRemovalEnv t w)
        ((publishAliased (onceRemovalEnv t w) (OnceFunc b t w) t).2.1) t).1 = []
    ∧ (publishAliased (onceRemovalEnv t w)
        ((publishAliased (onceRemovalEnv t w) (OnceFunc b t w) t).2.1) t).2.2 = 0 := by
  have hlist : findList (OnceFunc b t w).topics t = [w] := by
    show findList (subTopics b.topics t w) t = [w]
    rw [findList, findTopic_subTopics_self, Option.getD_some, findList, habs]
    rfl
  have key1 : publishAliased (onceRemovalEnv t w) (OnceFunc b t w) t
      = ([w], ⟨eraseKey (OnceFunc b t w).topics t⟩, 1) := by
    unfold publishAliased
    rw [hlist]
    simp [runRemovals, applyRemoval, onceRemovalEnv, firstIdx, sliceRemove,
      List.range_succ, List.range_zero]
  have key2 : ∀ b2 : Bus τ, findTopic b2.topics t = none →
      publishAliased (onceRemovalEnv t w) b2 t = ([], ⟨eraseKey b2.topics t⟩, 0) := by
    intro b2 h2
    unfold publishAliased
    rw [findList, h2]
    simp
  have h3 : findTopic (⟨eraseKey (OnceFunc b t w).topics t⟩ : Bus τ).topics t = none :=
    findTopic_eraseKey_self _ t
  refine ⟨by rw [key1], by rw [key1], ?_, ?_⟩
  · rw [key1]
    rw [key2 _ h3]
  · rw [key1]
    rw [key2 _ h3]

/-- C8 witness: on a fresh bus, once wrapper 5 on topic 0 is invoked by the
first publish and not by the second. -/
theorem C8_once_invoked_exactly_once_witness :
    (publishAliased (onceRemovalEnv 0 5) (OnceFunc (NewBus : Bus Nat) 0 5) 0).1 = [5]
    ∧ (publishAliased (onceRemovalEnv 0 5)
        ((publishAliased (onceRemovalEnv 0 5) (OnceFunc (NewBus : Bus Nat) 0 5) 0).2.1)
        0).2.2 = 0 :=
  ⟨(C8_once_invoked_exactly_once (NewBus : Bus Nat) 0 5 rfl).1,
   (C8_once_invoked_exactly_once (NewBus : Bus Nat) 0 5 rfl).2.2.2⟩

/-- C9: each `SubscribeFunc` call wraps the passed function in a freshly
allocated `HandlerFunc` cell: the wrapper identities of two successive calls
differ (whatever the underlying functions), the new wrapper differs from
every identity already registered anywhere on the bus, the returned
capability captures exactly the new wrapper, and `Unsubscribe` with any
handler other than that wrapper neither reports success when the wrapper is
the only registration on its topic nor disturbs the wrapper's registration
count. -/
theorem C9_subscribefunc_fresh_identity {τ : Type} [DecidableEq τ] (a : ABus τ)
    (t t2 : τ) (hwa : a.WellAlloc) :
    ((a.SubscribeFunc t).2.1 ≠ ((a.SubscribeFunc t).1.SubscribeFunc t2).2.1)
    ∧ (∀ p ∈ a.bus.topics, (a.SubscribeFunc t).2.1 ∉ p.2)
    ∧ ((a.SubscribeFunc t).2.2 = ⟨t, (a.SubscribeFunc t).2.1⟩)
    ∧ (findTopic a.bus.topics t = none →
        ∀ h2, h2 ≠ (a.SubscribeFunc t).2.1 →
          ((a.SubscribeFunc t).1.bus.Unsubscribe t h2).2 = false)
    ∧ (KeysND a.bus.topics → ∀ h2, h2 ≠ (a.SubscribeFunc t).2.1 → ∀ t3,
        (findList (((a.SubscribeFunc t).1.bus.Unsubscribe t3 h2).1).topics t).count
            ((a.SubscribeFunc t).2.1)
        = (findList ((a.SubscribeFunc t).1.bus).topics t).count ((a.SubscribeFunc t).2.1)) := by
  refine ⟨?_, ?_, rfl, ?_, ?_⟩
  · show a.fresh ≠ a.fresh + 1
    exact Nat.ne_of_lt (Nat.lt_succ_self a.fresh)
  · intro p hp hc
    exact lt_irrefl a.fresh (hwa p hp a.fresh hc)
  · intro habs h2 hne
    have hlist : findList ((a.SubscribeFunc t).1.bus).topics t = [a.fresh] := by
      show findList (subTopics a.bus.topics t a.fresh) t = [a.fresh]
      rw [findList, findTopic_subTopics_self, Option.getD_some, findList, habs]
      rfl
    have hnm : h2 ∉ findList ((a.SubscribeFunc t).1.bus).topics t := by
      rw [hlist]
      intro hc
      rw [List.mem_singleton] at hc
      exact hne hc
    show (unsubTopics ((a.SubscribeFunc t).1.bus).topics t h2).2 = false
    rw [unsubTopics_not_found hnm]
  · intro knd h2 hne t3
    have knd2 : KeysND ((a.SubscribeFunc t).1.bus).topics := KeysND_subTopics t a.fresh knd
    by_cases hEq : t3 = t
    · subst hEq
      exact count_findList_unsubTopics knd2 hne
    · have hoth := findTopic_unsubTopics_other ((a.SubscribeFunc t).1.bus).topics h2
        (Ne.symm hEq)
      show ((findTopic (unsubTopics ((a.SubscribeFunc t).1.bus).topics t3 h2).1 t).getD
          []).count ((a.SubscribeFunc t).2.1)
        = (findList ((a.SubscribeFunc t).1.bus).topics t).count ((a.SubscribeFunc t).2.1)
      rw [hoth]
      rfl

/-- C9 witness: from a bus already holding handler 0 with frontier 1, the
first wrapper (identity 1) differs from the second (identity 2). -/
theorem C9_subscribefunc_fresh_identity_witness :
    ((⟨⟨[(0, [0])]⟩, 1⟩ : ABus Nat).SubscribeFunc 0).2.1
      ≠ (((⟨⟨[(0, [0])]⟩, 1⟩ : ABus Nat).SubscribeFunc 0).1.SubscribeFunc 0).2.1 :=
  (C9_subscribefunc_fresh_identity (⟨⟨[(0, [0])]⟩, 1⟩ : ABus Nat) 0 0
    (by
      show ∀ p ∈ [((0 : Nat), [(0 : Nat)])], ∀ h ∈ p.2, h < 1
      decide)).1

end GoBus
